import Mathlib

/-!
Verification of the resource persistence core of the pyxel engine
(`crates/pyxel-engine/src/resource_data.rs`).

The file embeds the data model and the operations of `resource_data.rs`
as executable Lean definitions and proves the specified properties about
them: the grid-codec round trip, the per-category adapter round trips,
the selective import/export semantics of `to_runtime` / `to_toml`, the
hex color encoding, the noise-index enumeration, and format-version
stamping.

Machine integers (`u8`, `u16`, `u32`) are modelled as `Nat`; the only
place where the 32-bit bound matters behaviourally is the
`u32::from_str_radix` overflow check, which is modelled explicitly via
`U32_LIMIT`.
-/

namespace PyxelEngine

/-- Drop the longest suffix of `l` all of whose elements satisfy `p`. -/
def trimEndBy (p : α → Bool) (l : List α) : List α :=
  (l.reverse.dropWhile p).reverse

/-- Truncate or right-pad `l` with copies of `x` so its length is `n`
(the semantics of Rust `Vec::resize`). -/
def padTo (n : Nat) (x : α) (l : List α) : List α :=
  l.take n ++ List.replicate (n - l.length) x

/-- Modelled from the spec: `compress_vec2` lives in `crate::utils`, which is
not under `src/`.  Per the spec (§4.1) it is a generic, lossless, pure
compressor for rectangular grids of fixed-length rows that collapses the
redundancy of authored pixel/tile art and sends zero-height and zero-width
grids to an empty compressed form.  We model it as trailing-default
trimming: each row is trimmed of its trailing default elements, then
trailing empty rows are removed. -/
def compress_vec2 [DecidableEq α] [Inhabited α] (data : List (List α)) : List (List α) :=
  trimEndBy List.isEmpty (data.map (trimEndBy (fun a => a == default)))

/-- Modelled from the spec: `expand_vec2` lives in `crate::utils`, which is
not under `src/`.  Per the spec (§4.1) it is the inverse transform: it
rebuilds a `height × width` grid from the compressed rows, restoring the
trimmed default elements. -/
def expand_vec2 [Inhabited α] (data : List (List α)) (height width : Nat) : List (List α) :=
  (padTo height [] data).map (padTo width default)

/-- Rust slice `chunks(w)`: split a list into consecutive runs of length `w`
(the last one possibly shorter).  Rust panics on chunk size 0; that branch is
modelled as `[]` and is unreachable for the positive widths the engine uses. -/
def toRows (w : Nat) : List α → List (List α)
  | [] => []
  | a :: rest =>
    if _h : w = 0 then []
    else (a :: rest).take w :: toRows w ((a :: rest).drop w)
termination_by l => l.length
decreasing_by
  simp only [List.length_drop, List.length_cons]
  omega

/-- Palette index of a pixel (`Color = u8` in the engine). -/
abbrev Color := Nat

/-- Runtime image: the `width`/`height` dimensions and the flat row-major
pixel buffer `canvas.data` (the per-instance lock is dropped: the embedding
is a value model). -/
structure Image where
  width : Nat
  height : Nat
  data : List Color
deriving DecidableEq

/-- Serializable image record (`struct ImageData`). -/
structure ImageData where
  width : Nat
  height : Nat
  data : List (List Color)
deriving DecidableEq

/-- `ImageData::from_image`: read the dimensions, split the flat pixel
buffer into rows of `width`, compress. -/
def ImageData.from_image (image : Image) : ImageData :=
  { width := image.width,
    height := image.height,
    data := compress_vec2 (toRows image.width image.data) }

/-- `ImageData::to_image`: expand using the stored `height`/`width`
metadata, flatten the rows back into one contiguous buffer. -/
def ImageData.to_image (d : ImageData) : Image :=
  { width := d.width,
    height := d.height,
    data := (expand_vec2 d.data d.height d.width).flatten }

/-- Tile coordinate component (`TileCoord = u16` in the engine). -/
abbrev TileCoord := Nat

/-- `enum ImageSource`: a tilemap's image source is either an index into the
shared image pool or an inline embedded image. -/
inductive ImageSource where
  | index : Nat → ImageSource
  | image : Image → ImageSource
deriving DecidableEq

/-- Runtime tilemap: dimensions, image source, and the flat row-major
canvas of `(tile-x, tile-y)` coordinate pairs. -/
structure Tilemap where
  width : Nat
  height : Nat
  imgsrc : ImageSource
  data : List (TileCoord × TileCoord)
deriving DecidableEq

/-- Serializable tilemap record (`struct TilemapData`). -/
structure TilemapData where
  width : Nat
  height : Nat
  imgsrc : Nat
  data : List (List TileCoord)
deriving DecidableEq

/-- `TilemapData::from_tilemap`: persist an `Index` source as its value and
an embedded `Image` source as 0, flatten the coordinate pairs into
interleaved scalars, chunk into rows of `width * 2`, compress. -/
def TilemapData.from_tilemap (tm : Tilemap) : TilemapData :=
  { width := tm.width,
    height := tm.height,
    imgsrc :=
      match tm.imgsrc with
      | ImageSource.index v => v
      | ImageSource.image _ => 0,
    data := compress_vec2 (toRows (tm.width * 2) (tm.data.flatMap fun c => [c.1, c.2])) }

/-- Rust `chunks(2).map(|chunk| (chunk[0], chunk[1]))`: regroup an
interleaved scalar list into pairs.  Rust panics on an odd leftover element;
that branch is modelled as dropping it and is unreachable here because the
interleaved lists always have even length. -/
def pairUp : List α → List (α × α)
  | a :: b :: rest => (a, b) :: pairUp rest
  | _ => []

/-- `TilemapData::to_tilemap`: expand with the stored `height` and
`width * 2`, flatten, regroup into coordinate pairs, and rebuild the tilemap
with an `Index` image source. -/
def TilemapData.to_tilemap (d : TilemapData) : Tilemap :=
  { width := d.width,
    height := d.height,
    imgsrc := ImageSource.index d.imgsrc,
    data := pairUp (expand_vec2 d.data d.height (d.width * 2)).flatten }

/-- Modelled from the spec: the `Noise` enumeration lives in
`crate::waveform`, which is not under `src/`.  Per the spec (§4.4, §8.7) it
is a fixed enumeration of noise types whose selector round-trips through an
index⇄variant mapping; the variant names follow the engine's noise modes. -/
inductive Noise where
  | off : Noise
  | shortPeriod : Noise
  | longPeriod : Noise
deriving DecidableEq

/-- Modelled from the spec: `Noise::to_index` (crate::waveform, not under
`src/`) exports a variant to its integer index in the fixed enumeration. -/
def Noise.to_index : Noise → Nat
  | Noise.off => 0
  | Noise.shortPeriod => 1
  | Noise.longPeriod => 2

/-- Modelled from the spec: `Noise::from_index` (crate::waveform, not under
`src/`) reconstructs a variant from its index; an index beyond the known
range is a fatal reconstruction error, modelled as `none`. -/
def Noise.from_index : Nat → Option Noise
  | 0 => some Noise.off
  | 1 => some Noise.shortPeriod
  | 2 => some Noise.longPeriod
  | _ + 3 => none

/-- Engine scalar type aliases.  `Gain`, `Detune`, `Note`, `Speed`,
`Volume`, `Tone`, `Effect` and the waveform amplitude are copied verbatim by
the adapters, so their carrier is irrelevant; signed ones are `Int`,
unsigned ones `Nat`. -/
abbrev Gain := Int

abbrev Detune := Int

abbrev Note := Int

abbrev Volume := Nat

abbrev Tone := Nat

abbrev Effect := Nat

abbrev Speed := Nat

abbrev Amp := Nat

/-- The fixed-size waveform amplitude table (its engine-fixed length is not
enforced by this core). -/
abbrev WaveformTable := List Amp

/-- 24-bit RGB color as stored in the runtime palette (`Rgb24 = u32`). -/
abbrev Rgb24 := Nat

/-- Runtime waveform. -/
structure Waveform where
  gain : Gain
  noise : Noise
  table : WaveformTable
deriving DecidableEq

/-- Serializable waveform record (`struct WaveformData`): the noise
selector is persisted as an integer index. -/
structure WaveformData where
  gain : Gain
  noise : Nat
  table : WaveformTable
deriving DecidableEq

/-- `WaveformData::from_waveform`. -/
def WaveformData.from_waveform (w : Waveform) : WaveformData :=
  { gain := w.gain, noise := w.noise.to_index, table := w.table }

/-- `WaveformData::to_waveform`: `Noise::from_index` is fatal on an
out-of-range index, so reconstruction is fallible. -/
def WaveformData.to_waveform (d : WaveformData) : Option Waveform :=
  (Noise.from_index d.noise).map fun n => { gain := d.gain, noise := n, table := d.table }

/-- Runtime channel. -/
structure Channel where
  gain : Gain
  detune : Detune
deriving DecidableEq

/-- Serializable channel record (`struct ChannelData`). -/
structure ChannelData where
  gain : Gain
  detune : Detune
deriving DecidableEq

/-- `ChannelData::from_channel`. -/
def ChannelData.from_channel (c : Channel) : ChannelData :=
  { gain := c.gain, detune := c.detune }

/-- `ChannelData::to_channel`. -/
def ChannelData.to_channel (d : ChannelData) : Channel :=
  { gain := d.gain, detune := d.detune }

/-- Runtime sound: four parallel sequences plus a playback speed. -/
structure Sound where
  notes : List Note
  tones : List Tone
  volumes : List Volume
  effects : List Effect
  speed : Speed
deriving DecidableEq

/-- Serializable sound record (`struct SoundData`). -/
structure SoundData where
  notes : List Note
  tones : List Tone
  volumes : List Volume
  effects : List Effect
  speed : Speed
deriving DecidableEq

/-- `SoundData::from_sound`. -/
def SoundData.from_sound (s : Sound) : SoundData :=
  { notes := s.notes, tones := s.tones, volumes := s.volumes,
    effects := s.effects, speed := s.speed }

/-- `SoundData::to_sound`. -/
def SoundData.to_sound (d : SoundData) : Sound :=
  { notes := d.notes, tones := d.tones, volumes := d.volumes,
    effects := d.effects, speed := d.speed }

/-- Runtime music: a list of independently owned sequences of sound
indices (the per-sequence locks are dropped in the value model). -/
structure Music where
  seqs : List (List Nat)
deriving DecidableEq

/-- Serializable music record (`struct MusicData`). -/
structure MusicData where
  seqs : List (List Nat)
deriving DecidableEq

/-- `MusicData::from_music`. -/
def MusicData.from_music (m : Music) : MusicData :=
  { seqs := m.seqs }

/-- `MusicData::to_music`. -/
def MusicData.to_music (d : MusicData) : Music :=
  { seqs := d.seqs }

/-- `2^32`: the exclusive upper bound of `u32`, the one machine-integer
bound with observable behaviour here (the `from_str_radix` overflow check). -/
def U32_LIMIT : Nat := 4294967296

/-- Uppercase hex digit character for a value below 16 (the digit alphabet
of Rust's `{:X}` formatting). -/
def hexDigitChar (n : Nat) : Char :=
  if n < 10 then Char.ofNat (48 + n) else Char.ofNat (55 + n)

/-- Little-endian uppercase hex digits of `n` (empty for 0), with explicit
fuel so the recursion is structural; the digit production loop behind
Rust's `{:X}` formatting.  `fuel ≥ n` suffices since `n / 16 < n`. -/
def toHexRevDigitsAux : Nat → Nat → List Char
  | _, 0 => []
  | 0, _ + 1 => []
  | n + 1, fuel + 1 => hexDigitChar ((n + 1) % 16) :: toHexRevDigitsAux ((n + 1) / 16) fuel

/-- Little-endian uppercase hex digits of `n` (empty for 0). -/
def toHexRevDigits (n : Nat) : List Char :=
  toHexRevDigitsAux n n

/-- Rust `format!("{:X}", n)`: most-significant-first uppercase hex digits,
`"0"` for zero. -/
def toHexUpper (n : Nat) : String :=
  if n = 0 then "0" else String.mk (toHexRevDigits n).reverse

/-- Rust `format!("{:06X}", n)`: the uppercase hex digits left-padded with
`'0'` to a minimum width of 6 (wider values keep all their digits). -/
def format06X (n : Nat) : String :=
  String.mk (List.replicate (6 - (toHexUpper n).length) '0' ++ (toHexUpper n).toList)

/-- Value of one hex digit character, as in Rust `char::to_digit(16)`:
`0-9`, `A-F` and `a-f` are digits, everything else is `None`. -/
def hexDigitVal (c : Char) : Option Nat :=
  if 48 ≤ c.toNat ∧ c.toNat ≤ 57 then some (c.toNat - 48)
  else if 65 ≤ c.toNat ∧ c.toNat ≤ 70 then some (c.toNat - 55)
  else if 97 ≤ c.toNat ∧ c.toNat ≤ 102 then some (c.toNat - 87)
  else none

/-- Digit-accumulation loop of `u32::from_str_radix(s, 16)`: an invalid
digit or a value escaping the `u32` range (the `checked_mul`/`checked_add`
overflow test) is an error. -/
def parseHexCore : List Char → Nat → Option Nat
  | [], acc => some acc
  | c :: cs, acc =>
    match hexDigitVal c with
    | none => none
    | some d => if acc * 16 + d < U32_LIMIT then parseHexCore cs (acc * 16 + d) else none

/-- Rust `u32::from_str_radix(s, 16)`: empty input is an error, otherwise
the digits are accumulated with the overflow check.  (The optional sign
prefix Rust also accepts is not modelled: the persisted color format never
contains one.) -/
def fromStrRadix16 (s : String) : Option Nat :=
  if s.toList.isEmpty then none else parseHexCore s.toList 0

/-- Runtime resource pools of the engine (`struct Pyxel`, runtime handle):
one ordered pool per category.  The per-pool and per-instance locks are
dropped: operations are synchronous state transformations in the model. -/
structure Pyxel where
  colors : List Rgb24
  images : List Image
  tilemaps : List Tilemap
  channels : List Channel
  sounds : List Sound
  musics : List Music
  waveforms : List Waveform
deriving DecidableEq

/-- Modelled from the spec: `RESOURCE_FORMAT_VERSION` lives in
`crate::settings`, which is not under `src/`.  The spec fixes only that it
is the engine's current format-version integer constant; its concrete value
is irrelevant to every property proved here. -/
def RESOURCE_FORMAT_VERSION : Nat := 1

/-- Serializable snapshot of all resource categories
(`struct ResourceData`). -/
structure ResourceData where
  format_version : Nat
  colors : List String
  images : List ImageData
  tilemaps : List TilemapData
  channels : List ChannelData
  sounds : List SoundData
  musics : List MusicData
  waveforms : List WaveformData
deriving DecidableEq

/-- `ResourceData::from_runtime`: stamp the current format version, then
fill every category list from the runtime pools in order (colors are
serialized with `{:06X}`). -/
def ResourceData.from_runtime (p : Pyxel) : ResourceData :=
  { format_version := RESOURCE_FORMAT_VERSION,
    colors := p.colors.map format06X,
    images := p.images.map ImageData.from_image,
    tilemaps := p.tilemaps.map TilemapData.from_tilemap,
    channels := p.channels.map ChannelData.from_channel,
    sounds := p.sounds.map SoundData.from_sound,
    musics := p.musics.map MusicData.from_music,
    waveforms := p.waveforms.map WaveformData.from_waveform }

/-- Sequential fallible map over a list, the model of Rust
`iter().map(...).collect()` where each element conversion may panic or
fail: the first failure aborts the whole conversion. -/
def mapMOption (f : α → Option β) : List α → Option (List β)
  | [] => some []
  | a :: rest =>
    match f a with
    | none => none
    | some b =>
      match mapMOption f rest with
      | none => none
      | some bs => some (b :: bs)

/-- `ResourceData::to_runtime`: for each category in source order (colors,
images, tilemaps, channels, sounds, musics, waveforms), replace the runtime
pool wholesale when the selection flag permits it and the snapshot list is
non-empty.  A color-decode failure or an unknown noise index is a panic in
the source (`unwrap`, `Noise::from_index`), modelled as `none`: no final
state exists and no assignment is observed. -/
def ResourceData.to_runtime (d : ResourceData) (p : Pyxel)
    (exclude_images exclude_tilemaps exclude_sounds exclude_musics
     include_colors include_channels include_waveforms : Bool) : Option Pyxel :=
  (if include_colors && !d.colors.isEmpty then
      (mapMOption fromStrRadix16 d.colors).map fun cs => { p with colors := cs }
    else some p).bind fun p1 =>
  let p2 := if !exclude_images && !d.images.isEmpty then
      { p1 with images := d.images.map ImageData.to_image } else p1
  let p3 := if !exclude_tilemaps && !d.tilemaps.isEmpty then
      { p2 with tilemaps := d.tilemaps.map TilemapData.to_tilemap } else p2
  let p4 := if include_channels && !d.channels.isEmpty then
      { p3 with channels := d.channels.map ChannelData.to_channel } else p3
  let p5 := if !exclude_sounds && !d.sounds.isEmpty then
      { p4 with sounds := d.sounds.map SoundData.to_sound } else p4
  let p6 := if !exclude_musics && !d.musics.isEmpty then
      { p5 with musics := d.musics.map MusicData.to_music } else p5
  if include_waveforms && !d.waveforms.isEmpty then
    (mapMOption WaveformData.to_waveform d.waveforms).map fun ws =>
      { p6 with waveforms := ws }
  else some p6

/-- Concrete snapshot used by the `to_runtime` witnesses. -/
def sampleData : ResourceData :=
  { format_version := 2,
    colors := ["FF0000"],
    images := [⟨1, 1, [[3]]⟩],
    tilemaps := [],
    channels := [⟨5, 6⟩],
    sounds := [⟨[1], [0], [7], [0], 30⟩],
    musics := [⟨[[2]]⟩],
    waveforms := [⟨1, 0, [9]⟩] }

/-- Concrete runtime state used by the `to_runtime` witnesses. -/
def samplePyxel : Pyxel :=
  { colors := [0],
    images := [],
    tilemaps := [⟨1, 1, ImageSource.index 0, [(0, 0)]⟩],
    channels := [⟨2, 3⟩],
    sounds := [],
    musics := [⟨[[1]]⟩],
    waveforms := [⟨1, Noise.off, [0]⟩] }

/-- The state `to_runtime` produces from `sampleData` and `samplePyxel`
with all seven selection flags false. -/
def samplePyxelAfter : Pyxel :=
  { colors := [0],
    images := [⟨1, 1, [3]⟩],
    tilemaps := [⟨1, 1, ImageSource.index 0, [(0, 0)]⟩],
    channels := [⟨2, 3⟩],
    sounds := [⟨[1], [0], [7], [0], 30⟩],
    musics := [⟨[[2]]⟩],
    waveforms := [⟨1, Noise.off, [0]⟩] }

/-- `ResourceData::to_toml` clones the snapshot value, clears every
category list not selected by the flags, and serializes the remainder with
the external `toml` crate.  The serializer is outside this repository's
code; the embedding returns the filtered snapshot value handed to it.  The
source operates on a clone of `self` and touches no runtime state, which
the pure model reflects by construction. -/
def ResourceData.to_toml_data (d : ResourceData)
    (exclude_images exclude_tilemaps exclude_sounds exclude_musics
     include_colors include_channels include_waveforms : Bool) : ResourceData :=
  let r := d
  let r := if !include_colors then { r with colors := [] } else r
  let r := if exclude_images then { r with images := [] } else r
  let r := if exclude_tilemaps then { r with tilemaps := [] } else r
  let r := if !include_channels then { r with channels := [] } else r
  let r := if exclude_sounds then { r with sounds := [] } else r
  let r := if exclude_musics then { r with musics := [] } else r
  if !include_waveforms then { r with waveforms := [] } else r

theorem trimEndBy_length_le (p : α → Bool) (l : List α) :
    (trimEndBy p l).length ≤ l.length := by
  have h : (l.reverse.dropWhile p).length ≤ l.reverse.length :=
    (List.dropWhile_sublist p).length_le
  simpa [trimEndBy] using h

theorem trimEndBy_append_replicate (p : α → Bool) (x : α)
    (hx : ∀ a, p a = true → a = x) (l : List α) :
    trimEndBy p l ++ List.replicate (l.length - (trimEndBy p l).length) x = l := by
  have hl : (l.reverse.dropWhile p).reverse ++ (l.reverse.takeWhile p).reverse = l := by
    rw [← List.reverse_append, List.takeWhile_append_dropWhile, List.reverse_reverse]
  have htake : (l.reverse.takeWhile p).reverse
      = List.replicate (l.reverse.takeWhile p).length x := by
    apply List.eq_replicate_iff.2
    constructor
    · simp
    · intro b hb
      exact hx b (List.mem_takeWhile_imp (List.mem_reverse.mp hb))
  have hlen : l.length - (trimEndBy p l).length = (l.reverse.takeWhile p).length := by
    have h1 := congrArg List.length hl
    rw [List.length_append, List.length_reverse, List.length_reverse] at h1
    have h2 : (trimEndBy p l).length = (l.reverse.dropWhile p).length := by
      simp [trimEndBy]
    omega
  rw [hlen, trimEndBy, ← htake]
  exact hl

theorem padTo_trimEndBy (p : α → Bool) (x : α)
    (hx : ∀ a, p a = true → a = x) (l : List α) (n : Nat) (hn : l.length = n) :
    padTo n x (trimEndBy p l) = l := by
  have hle : (trimEndBy p l).length ≤ n := hn ▸ trimEndBy_length_le p l
  rw [padTo, List.take_of_length_le hle, ← hn]
  exact trimEndBy_append_replicate p x hx l

theorem expand_compress [DecidableEq α] [Inhabited α] (g : List (List α))
    (hgt wid : Nat) (hh : g.length = hgt) (hw : ∀ r ∈ g, r.length = wid) :
    expand_vec2 (compress_vec2 g) hgt wid = g := by
  have hrow : ∀ r ∈ g, padTo wid default (trimEndBy (fun a => a == default) r) = r := by
    intro r hr
    exact padTo_trimEndBy _ default (fun a ha => by simpa using ha) r wid (hw r hr)
  have houter : padTo hgt [] (compress_vec2 g)
      = g.map (trimEndBy (fun a => a == default)) := by
    rw [compress_vec2]
    apply padTo_trimEndBy List.isEmpty ([] : List α)
    · intro a ha
      exact List.isEmpty_iff.mp ha
    · simpa using hh
  rw [expand_vec2, houter, List.map_map]
  calc g.map (padTo wid default ∘ trimEndBy (fun a => a == default))
      = g.map id := List.map_congr_left (fun r hr => hrow r hr)
    _ = g := List.map_id g

theorem compress_vec2_eq_nil_of_degenerate [DecidableEq α] [Inhabited α]
    (g : List (List α)) (hgt wid : Nat) (hh : g.length = hgt)
    (hw : ∀ r ∈ g, r.length = wid) (hz : hgt = 0 ∨ wid = 0) :
    compress_vec2 g = [] := by
  rcases hz with hz | hz
  · have : g = [] := by
      subst hz
      exact List.length_eq_zero.mp hh
    subst this
    rfl
  · subst hz
    have hempty : ∀ r ∈ (g.map (trimEndBy (fun a => a == default))).reverse,
        List.isEmpty r = true := by
      intro r hr
      rw [List.mem_reverse, List.mem_map] at hr
      obtain ⟨s, hs, rfl⟩ := hr
      have : s = [] := List.length_eq_zero.mp (hw s hs)
      subst this
      rfl
    rw [compress_vec2, trimEndBy]
    rw [List.dropWhile_eq_nil_iff.mpr fun r hr => hempty r hr]
    rfl

/-- C1: for every rectangular grid `g` of fixed-length rows (any element
type), `expand_vec2 (compress_vec2 g) height width = g`, and zero-height or
zero-width grids round-trip through an empty compressed form. -/
theorem codec_roundtrip {α : Type} [DecidableEq α] [Inhabited α]
    (g : List (List α)) (hgt wid : Nat) (hh : g.length = hgt)
    (hw : ∀ r ∈ g, r.length = wid) :
    expand_vec2 (compress_vec2 g) hgt wid = g ∧
      ((hgt = 0 ∨ wid = 0) → compress_vec2 g = []) :=
  ⟨expand_compress g hgt wid hh hw,
   fun hz => compress_vec2_eq_nil_of_degenerate g hgt wid hh hw hz⟩

theorem codec_roundtrip_witness :
    (expand_vec2 (compress_vec2 [[1, 0], [0, 0]]) 2 2 = [[1, 0], [0, 0]] ∧
      (((2 : Nat) = 0 ∨ (2 : Nat) = 0) → compress_vec2 [[1, 0], [0, 0]] = ([] : List (List Nat)))) ∧
    expand_vec2 (compress_vec2 ([] : List (List Nat))) 0 5 = ([] : List (List Nat)) :=
  ⟨codec_roundtrip [[1, 0], [0, 0]] 2 2 (by decide) (by decide),
   (codec_roundtrip ([] : List (List Nat)) 0 5 (by decide) (by decide)).1⟩

theorem toRows_nil (w : Nat) : toRows w ([] : List α) = [] := by
  rw [toRows]

theorem toRows_flatten (w : Nat) (hw : 0 < w) :
    ∀ fuel (l : List α), l.length ≤ fuel → (toRows w l).flatten = l := by
  intro fuel
  induction fuel with
  | zero =>
    intro l hl
    have : l = [] := List.length_eq_zero.mp (Nat.le_zero.mp hl)
    subst this
    rw [toRows_nil]
    rfl
  | succ n ih =>
    intro l hl
    match l with
    | [] =>
      rw [toRows_nil]
      rfl
    | a :: rest =>
      rw [toRows]
      rw [dif_neg (Nat.pos_iff_ne_zero.mp hw)]
      rw [List.flatten_cons]
      have hdrop : ((a :: rest).drop w).length ≤ n := by
        simp only [List.length_drop, List.length_cons]
        simp only [List.length_cons] at hl
        omega
      rw [ih _ hdrop, List.take_append_drop]

theorem toRows_length (w : Nat) (hw : 0 < w) :
    ∀ (hgt : Nat) (l : List α), l.length = w * hgt → (toRows w l).length = hgt := by
  intro hgt
  induction hgt with
  | zero =>
    intro l hl
    have : l = [] := List.length_eq_zero.mp (by simpa using hl)
    subst this
    rw [toRows_nil]
    rfl
  | succ n ih =>
    intro l hl
    match l, hl with
    | [], hl =>
      exfalso
      have hpos : 0 < w * (n + 1) := Nat.mul_pos hw (by omega)
      rw [List.length_nil] at hl
      omega
    | a :: rest, hl =>
      rw [toRows, dif_neg (Nat.pos_iff_ne_zero.mp hw), List.length_cons]
      have hdrop : ((a :: rest).drop w).length = w * n := by
        simp only [List.length_drop, List.length_cons]
        simp only [List.length_cons] at hl
        rw [hl, Nat.mul_succ]
        omega
      rw [ih _ hdrop]

theorem toRows_row_length (w : Nat) (hw : 0 < w) :
    ∀ (hgt : Nat) (l : List α), l.length = w * hgt →
      ∀ r ∈ toRows w l, r.length = w := by
  intro hgt
  induction hgt with
  | zero =>
    intro l hl
    have : l = [] := List.length_eq_zero.mp (by simpa using hl)
    subst this
    intro r hr
    rw [toRows_nil] at hr
    simp at hr
  | succ n ih =>
    intro l hl
    match l, hl with
    | [], hl =>
      exfalso
      have hpos : 0 < w * (n + 1) := Nat.mul_pos hw (by omega)
      rw [List.length_nil] at hl
      omega
    | a :: rest, hl =>
      rw [toRows, dif_neg (Nat.pos_iff_ne_zero.mp hw)]
      intro r hr
      rcases List.mem_cons.mp hr with hr | hr
      · subst hr
        simp only [List.length_cons] at hl
        rw [List.length_take, List.length_cons, hl]
        have hle : w ≤ w * (n + 1) := by
          calc w = w * 1 := (Nat.mul_one w).symm
            _ ≤ w * (n + 1) := Nat.mul_le_mul_left w (by omega)
        exact Nat.min_eq_left hle
      · have hdrop : ((a :: rest).drop w).length = w * n := by
          simp only [List.length_drop, List.length_cons]
          simp only [List.length_cons] at hl
          rw [hl, Nat.mul_succ]
          omega
        exact ih _ hdrop r hr

/-- C3: for every image (canvas invariant: `data.length = width * height`,
positive width), `to_image (from_image img)` reproduces identical width,
height, and pixel-by-pixel palette indices; the restored dimensions are the
stored metadata. -/
theorem image_roundtrip (img : Image) (hwpos : 0 < img.width)
    (hdata : img.data.length = img.width * img.height) :
    (ImageData.from_image img).to_image = img := by
  rw [ImageData.from_image, ImageData.to_image]
  have hlen : (toRows img.width img.data).length = img.height :=
    toRows_length img.width hwpos img.height img.data hdata
  have hrow : ∀ r ∈ toRows img.width img.data, r.length = img.width :=
    toRows_row_length img.width hwpos img.height img.data hdata
  have hexp := expand_compress (toRows img.width img.data) img.height img.width hlen hrow
  simp only [hexp]
  rw [toRows_flatten img.width hwpos img.data.length img.data (Nat.le_refl _)]

theorem image_roundtrip_witness :
    (ImageData.from_image ⟨2, 1, [4, 0]⟩).to_image = ⟨2, 1, [4, 0]⟩ :=
  image_roundtrip ⟨2, 1, [4, 0]⟩ (by decide) (by decide)

theorem pairUp_interleave (l : List (α × α)) :
    pairUp (l.flatMap fun c => [c.1, c.2]) = l := by
  induction l with
  | nil => rfl
  | cons c rest ih =>
    rw [List.flatMap_cons]
    show pairUp (c.1 :: c.2 :: rest.flatMap fun c => [c.1, c.2]) = c :: rest
    rw [pairUp, ih]

theorem length_interleave (l : List (α × α)) :
    (l.flatMap fun c => [c.1, c.2]).length = 2 * l.length := by
  induction l with
  | nil => rfl
  | cons c rest ih =>
    rw [List.flatMap_cons]
    simp only [List.length_append, List.length_cons, List.length_nil, ih]
    omega

/-- C4: for every tilemap whose image source is an index (canvas invariant:
`data.length = width * height`, positive width), `to_tilemap (from_tilemap tm)`
reproduces identical width, height, image-source index, and every cell's
exact `(tile-x, tile-y)` pair: interleaving into rows of `2 * width` scalars
and the chunk-of-2 regrouping are mutually inverse. -/
theorem tilemap_roundtrip (tm : Tilemap) (v : Nat)
    (hsrc : tm.imgsrc = ImageSource.index v) (hwpos : 0 < tm.width)
    (hdata : tm.data.length = tm.width * tm.height) :
    (TilemapData.from_tilemap tm).to_tilemap = tm := by
  rw [TilemapData.from_tilemap, TilemapData.to_tilemap]
  have hw2 : 0 < tm.width * 2 := by omega
  have hflat : (tm.data.flatMap fun c => [c.1, c.2]).length
      = tm.width * 2 * tm.height := by
    rw [length_interleave, hdata]
    ring
  have hlen := toRows_length (tm.width * 2) hw2 tm.height _ hflat
  have hrow := toRows_row_length (tm.width * 2) hw2 tm.height _ hflat
  have hexp := expand_compress (toRows (tm.width * 2) (tm.data.flatMap fun c => [c.1, c.2]))
    tm.height (tm.width * 2) hlen hrow
  simp only [hexp]
  rw [toRows_flatten (tm.width * 2) hw2 _ _ (Nat.le_refl _), pairUp_interleave]
  rw [hsrc]
  show ({ width := tm.width, height := tm.height, imgsrc := ImageSource.index v,
          data := tm.data } : Tilemap) = tm
  rw [← hsrc]

theorem tilemap_roundtrip_witness :
    (TilemapData.from_tilemap ⟨2, 2, ImageSource.index 1, [(1, 2), (3, 4), (5, 6), (7, 8)]⟩).to_tilemap
      = ⟨2, 2, ImageSource.index 1, [(1, 2), (3, 4), (5, 6), (7, 8)]⟩ :=
  tilemap_roundtrip ⟨2, 2, ImageSource.index 1, [(1, 2), (3, 4), (5, 6), (7, 8)]⟩ 1
    rfl (by decide) (by decide)

/-- C9: `from_tilemap` persists an inline embedded image source as index 0
(silently, never an error — the function is total) and an `Index v` source
as exactly `v`. -/
theorem from_tilemap_imgsrc (tm : Tilemap) :
    (∀ img, tm.imgsrc = ImageSource.image img → (TilemapData.from_tilemap tm).imgsrc = 0) ∧
    (∀ v, tm.imgsrc = ImageSource.index v → (TilemapData.from_tilemap tm).imgsrc = v) := by
  constructor
  · intro img hsrc
    simp [TilemapData.from_tilemap, hsrc]
  · intro v hsrc
    simp [TilemapData.from_tilemap, hsrc]

theorem from_tilemap_imgsrc_witness :
    (TilemapData.from_tilemap ⟨1, 1, ImageSource.image ⟨1, 1, [0]⟩, [(0, 0)]⟩).imgsrc = 0 ∧
    (TilemapData.from_tilemap ⟨1, 1, ImageSource.index 7, [(0, 0)]⟩).imgsrc = 7 :=
  ⟨(from_tilemap_imgsrc ⟨1, 1, ImageSource.image ⟨1, 1, [0]⟩, [(0, 0)]⟩).1 ⟨1, 1, [0]⟩ rfl,
   (from_tilemap_imgsrc ⟨1, 1, ImageSource.index 7, [(0, 0)]⟩).2 7 rfl⟩

/-- C7: every noise variant round-trips through its integer index
unchanged, and reconstruction from any index beyond the known range is a
failure (`none`, the model of the fatal error), never a silent default. -/
theorem noise_index_roundtrip :
    (∀ n : Noise, Noise.from_index n.to_index = some n) ∧
    (∀ i : Nat, 3 ≤ i → Noise.from_index i = none) := by
  constructor
  · intro n
    cases n <;> rfl
  · intro i hi
    match i, hi with
    | k + 3, _ => rfl

theorem noise_index_roundtrip_witness :
    Noise.from_index (Noise.to_index Noise.longPeriod) = some Noise.longPeriod ∧
    Noise.from_index 3 = none :=
  ⟨noise_index_roundtrip.1 Noise.longPeriod, noise_index_roundtrip.2 3 (by decide)⟩

theorem hexDigitVal_hexDigitChar : ∀ r : Nat, r < 16 → hexDigitVal (hexDigitChar r) = some r := by
  decide

theorem parseHexCore_append (xs ys : List Char) :
    ∀ acc, parseHexCore (xs ++ ys) acc
      = (parseHexCore xs acc).bind fun a => parseHexCore ys a := by
  induction xs with
  | nil => intro acc; rfl
  | cons c cs ih =>
    intro acc
    rw [List.cons_append]
    cases hv : hexDigitVal c with
    | none => simp [parseHexCore, hv]
    | some d =>
      simp only [parseHexCore, hv]
      by_cases hlt : acc * 16 + d < U32_LIMIT
      · rw [if_pos hlt, if_pos hlt, ih]
      · rw [if_neg hlt, if_neg hlt]
        rfl

theorem parseHexCore_zeros (k : Nat) (cs : List Char) :
    parseHexCore (List.replicate k '0' ++ cs) 0 = parseHexCore cs 0 := by
  induction k with
  | zero => rfl
  | succ n ih =>
    rw [List.replicate_succ, List.cons_append]
    have h0 : hexDigitVal '0' = some 0 := rfl
    simp only [parseHexCore, h0]
    rw [if_pos (by norm_num [U32_LIMIT])]
    exact ih

theorem toHexRevDigitsAux_zero (fuel : Nat) : toHexRevDigitsAux 0 fuel = [] := by
  cases fuel <;> rfl

theorem parseHexCore_digits :
    ∀ fuel n acc, n ≤ fuel →
      acc * 16 ^ (toHexRevDigitsAux n fuel).length + n < U32_LIMIT →
      parseHexCore (toHexRevDigitsAux n fuel).reverse acc
        = some (acc * 16 ^ (toHexRevDigitsAux n fuel).length + n) := by
  intro fuel
  induction fuel with
  | zero =>
    intro n acc hn hb
    have hn0 : n = 0 := Nat.le_zero.mp hn
    subst hn0
    simp [toHexRevDigitsAux, parseHexCore]
  | succ f ih =>
    intro n acc hn hb
    match n, hn, hb with
    | 0, _, _ => simp [toHexRevDigitsAux_zero, parseHexCore]
    | m + 1, hn, hb =>
      have hdivlt : (m + 1) / 16 < m + 1 := Nat.div_lt_self (Nat.succ_pos m) (by omega)
      have hdf : (m + 1) / 16 ≤ f := by omega
      have hr16 : (m + 1) % 16 < 16 := Nat.mod_lt _ (by omega)
      have hqr : 16 * ((m + 1) / 16) + (m + 1) % 16 = m + 1 := Nat.div_add_mod (m + 1) 16
      have hlen : (toHexRevDigitsAux (m + 1) (f + 1)).length
          = (toHexRevDigitsAux ((m + 1) / 16) f).length + 1 := rfl
      rw [hlen] at hb ⊢
      have hpow : (16 : Nat) ^ ((toHexRevDigitsAux ((m + 1) / 16) f).length + 1)
          = 16 ^ (toHexRevDigitsAux ((m + 1) / 16) f).length * 16 := pow_succ 16 _
      have hbound : acc * 16 ^ (toHexRevDigitsAux ((m + 1) / 16) f).length + (m + 1) / 16
          < U32_LIMIT := by
        have h1 : acc * 16 ^ (toHexRevDigitsAux ((m + 1) / 16) f).length
            ≤ acc * 16 ^ ((toHexRevDigitsAux ((m + 1) / 16) f).length + 1) :=
          Nat.mul_le_mul_left acc (Nat.pow_le_pow_right (by omega) (by omega))
        have h2 : (m + 1) / 16 ≤ m + 1 := Nat.div_le_self _ _
        exact Nat.lt_of_le_of_lt (Nat.add_le_add h1 h2) hb
      have hval : (acc * 16 ^ (toHexRevDigitsAux ((m + 1) / 16) f).length + (m + 1) / 16) * 16
            + (m + 1) % 16
          = acc * 16 ^ ((toHexRevDigitsAux ((m + 1) / 16) f).length + 1) + (m + 1) := by
        calc (acc * 16 ^ (toHexRevDigitsAux ((m + 1) / 16) f).length + (m + 1) / 16) * 16
              + (m + 1) % 16
            = acc * (16 ^ (toHexRevDigitsAux ((m + 1) / 16) f).length * 16)
              + (16 * ((m + 1) / 16) + (m + 1) % 16) := by ring
          _ = acc * 16 ^ ((toHexRevDigitsAux ((m + 1) / 16) f).length + 1) + (m + 1) := by
              rw [hqr, ← hpow]
      have hcond : (acc * 16 ^ (toHexRevDigitsAux ((m + 1) / 16) f).length + (m + 1) / 16) * 16
            + (m + 1) % 16 < U32_LIMIT := by
        rw [hval]
        exact hb
      rw [show toHexRevDigitsAux (m + 1) (f + 1)
          = hexDigitChar ((m + 1) % 16) :: toHexRevDigitsAux ((m + 1) / 16) f from rfl]
      rw [List.reverse_cons, parseHexCore_append]
      rw [ih ((m + 1) / 16) acc hdf hbound]
      show parseHexCore [hexDigitChar ((m + 1) % 16)]
          (acc * 16 ^ (toHexRevDigitsAux ((m + 1) / 16) f).length + (m + 1) / 16)
        = some (acc * 16 ^ ((toHexRevDigitsAux ((m + 1) / 16) f).length + 1) + (m + 1))
      simp only [parseHexCore, hexDigitVal_hexDigitChar _ hr16]
      rw [if_pos hcond]
      show some ((acc * 16 ^ (toHexRevDigitsAux ((m + 1) / 16) f).length + (m + 1) / 16) * 16
          + (m + 1) % 16)
        = some (acc * 16 ^ ((toHexRevDigitsAux ((m + 1) / 16) f).length + 1) + (m + 1))
      rw [hval]

/-- C10: for every `u32` color value, Rust's `{:06X}` serialization followed
by `u32::from_str_radix(s, 16)` yields the value back exactly — the pair is
a lossless round trip on the whole `u32` range and the parse never
overflows, including values above `0xFFFFFF` whose serialization is wider
than 6 digits. -/
theorem color_u32_roundtrip (c : Nat) (hc : c < U32_LIMIT) :
    fromStrRadix16 (format06X c) = some c := by
  match c with
  | 0 => decide
  | m + 1 =>
    have hl : (toHexUpper (m + 1)).toList = (toHexRevDigits (m + 1)).reverse := by
      rw [toHexUpper, if_neg (Nat.succ_ne_zero m)]
      rfl
    have htoList : (format06X (m + 1)).toList
        = List.replicate (6 - (toHexUpper (m + 1)).length) '0'
          ++ (toHexRevDigits (m + 1)).reverse := by
      rw [format06X, ← hl]
      rfl
    have hdiglen : 0 < (toHexRevDigits (m + 1)).length := by
      have h1 : (toHexRevDigits (m + 1)).length
          = (toHexRevDigitsAux ((m + 1) / 16) m).length + 1 := rfl
      omega
    have hnil : List.replicate (6 - (toHexUpper (m + 1)).length) '0'
        ++ (toHexRevDigits (m + 1)).reverse ≠ [] := by
      intro h
      have hlen0 := congrArg List.length h
      rw [List.length_append, List.length_replicate, List.length_reverse,
        List.length_nil] at hlen0
      omega
    rw [fromStrRadix16, htoList]
    rw [if_neg (fun h => hnil (List.isEmpty_iff.mp h))]
    rw [parseHexCore_zeros]
    have hb : 0 * 16 ^ (toHexRevDigitsAux (m + 1) (m + 1)).length + (m + 1) < U32_LIMIT := by
      simpa using hc
    rw [show toHexRevDigits (m + 1) = toHexRevDigitsAux (m + 1) (m + 1) from rfl]
    rw [parseHexCore_digits (m + 1) (m + 1) 0 (Nat.le_refl _) hb]
    simp

theorem color_u32_roundtrip_witness :
    fromStrRadix16 (format06X 0xAB12CD34) = some 0xAB12CD34 :=
  color_u32_roundtrip 0xAB12CD34 (by decide)

theorem pyxel_ext {a b : Pyxel} (h1 : a.colors = b.colors)
    (h2 : a.images = b.images) (h3 : a.tilemaps = b.tilemaps)
    (h4 : a.channels = b.channels) (h5 : a.sounds = b.sounds)
    (h6 : a.musics = b.musics) (h7 : a.waveforms = b.waveforms) : a = b := by
  cases a
  cases b
  simp_all

theorem to_runtime_eq (d : ResourceData) (p : Pyxel)
    (ei et es em ic ich iw : Bool) :
    d.to_runtime p ei et es em ic ich iw =
      (if ic && !d.colors.isEmpty then mapMOption fromStrRadix16 d.colors
       else some p.colors).bind fun cs =>
      (if iw && !d.waveforms.isEmpty then mapMOption WaveformData.to_waveform d.waveforms
       else some p.waveforms).map fun ws =>
      { colors := cs,
        images := if !ei && !d.images.isEmpty then
          d.images.map ImageData.to_image else p.images,
        tilemaps := if !et && !d.tilemaps.isEmpty then
          d.tilemaps.map TilemapData.to_tilemap else p.tilemaps,
        channels := if ich && !d.channels.isEmpty then
          d.channels.map ChannelData.to_channel else p.channels,
        sounds := if !es && !d.sounds.isEmpty then
          d.sounds.map SoundData.to_sound else p.sounds,
        musics := if !em && !d.musics.isEmpty then
          d.musics.map MusicData.to_music else p.musics,
        waveforms := ws } := by
  cases hc : ic && !d.colors.isEmpty <;>
  cases hwv : iw && !d.waveforms.isEmpty <;>
  cases hm : mapMOption fromStrRadix16 d.colors <;>
  cases hmw : mapMOption WaveformData.to_waveform d.waveforms <;>
    simp only [ResourceData.to_runtime, hc, hwv, hm, hmw, Option.map_some',
      Option.map_none', Option.some_bind, Option.none_bind, Bool.false_eq_true,
      if_false, if_true, reduceIte] <;>
  first
  | rfl
  | (refine congrArg some (pyxel_ext ?_ ?_ ?_ ?_ ?_ ?_ ?_) <;>
      simp only [apply_ite Pyxel.colors, apply_ite Pyxel.images,
        apply_ite Pyxel.tilemaps, apply_ite Pyxel.channels,
        apply_ite Pyxel.sounds, apply_ite Pyxel.musics,
        apply_ite Pyxel.waveforms, ite_self])

theorem mapMOption_eq_none_of_mem (f : α → Option β) (l : List α) (x : α)
    (hx : x ∈ l) (hf : f x = none) : mapMOption f l = none := by
  induction l with
  | nil => cases hx
  | cons a rest ih =>
    rcases List.mem_cons.mp hx with h | h
    · subst h
      simp [mapMOption, hf]
    · cases hfa : f a with
      | none => simp [mapMOption, hfa]
      | some b => simp [mapMOption, hfa, ih h]

/-- C2: a category's runtime pool is replaced by `to_runtime` exactly when
its selection flag permits it (exclude flag false for images, tilemaps,
sounds, musics; include flag true for colors, channels, waveforms) and the
snapshot's list for that category is non-empty; when both hold the pool is
replaced wholesale with freshly constructed resources, otherwise it is left
untouched.  With all seven flags false this replaces the non-empty
images/tilemaps/sounds/musics lists and leaves colors/channels/waveforms
untouched. -/
theorem to_runtime_pool_replacement (d : ResourceData) (p s : Pyxel)
    (ei et es em ic ich iw : Bool)
    (h : d.to_runtime p ei et es em ic ich iw = some s) :
    s.images = (if !ei && !d.images.isEmpty then
      d.images.map ImageData.to_image else p.images) ∧
    s.tilemaps = (if !et && !d.tilemaps.isEmpty then
      d.tilemaps.map TilemapData.to_tilemap else p.tilemaps) ∧
    s.channels = (if ich && !d.channels.isEmpty then
      d.channels.map ChannelData.to_channel else p.channels) ∧
    s.sounds = (if !es && !d.sounds.isEmpty then
      d.sounds.map SoundData.to_sound else p.sounds) ∧
    s.musics = (if !em && !d.musics.isEmpty then
      d.musics.map MusicData.to_music else p.musics) ∧
    (if ic && !d.colors.isEmpty then
      mapMOption fromStrRadix16 d.colors = some s.colors
     else s.colors = p.colors) ∧
    (if iw && !d.waveforms.isEmpty then
      mapMOption WaveformData.to_waveform d.waveforms = some s.waveforms
     else s.waveforms = p.waveforms) := by
  rw [to_runtime_eq] at h
  rcases Option.bind_eq_some.mp h with ⟨cs, hcs, h2⟩
  rcases Option.map_eq_some'.mp h2 with ⟨ws, hws, hrec⟩
  subst hrec
  refine ⟨rfl, rfl, rfl, rfl, rfl, ?_, ?_⟩
  · cases hcond : ic && !d.colors.isEmpty
    · rw [hcond] at hcs
      simp at hcs ⊢
      exact hcs.symm
    · rw [hcond] at hcs
      simp at hcs ⊢
      exact hcs
  · cases hwcond : iw && !d.waveforms.isEmpty
    · rw [hwcond] at hws
      simp at hws ⊢
      exact hws.symm
    · rw [hwcond] at hws
      simp at hws ⊢
      exact hws

theorem to_runtime_pool_replacement_witness :
    samplePyxelAfter.images = sampleData.images.map ImageData.to_image ∧
    samplePyxelAfter.colors = samplePyxel.colors ∧
    samplePyxelAfter.tilemaps = samplePyxel.tilemaps :=
  ⟨(to_runtime_pool_replacement sampleData samplePyxel samplePyxelAfter
      false false false false false false false (by decide)).1,
   (to_runtime_pool_replacement sampleData samplePyxel samplePyxelAfter
      false false false false false false false (by decide)).2.2.2.2.2.1,
   (to_runtime_pool_replacement sampleData samplePyxel samplePyxelAfter
      false false false false false false false (by decide)).2.1⟩

/-- C5: `0x1A2B3C` serializes to exactly `"1A2B3C"` and parses back to the
same value; the malformed string `"ZZZZZZ"` is a decode failure (`none`),
never a silent zero, and when such a color is present a colors-including
`to_runtime` fails as a whole — the colors pool is never partially
replaced. -/
theorem color_hex_encode_decode :
    format06X 0x1A2B3C = "1A2B3C" ∧
    fromStrRadix16 ("1A2B3C") = some 0x1A2B3C ∧
    fromStrRadix16 ("ZZZZZZ") = none ∧
    ∀ (d : ResourceData) (p : Pyxel) (ei et es em ich iw : Bool),
      ("ZZZZZZ" : String) ∈ d.colors →
      d.to_runtime p ei et es em true ich iw = none := by
  refine ⟨by decide, by decide, by decide, ?_⟩
  intro d p ei et es em ich iw hmem
  rw [to_runtime_eq]
  have hcond : (true && !d.colors.isEmpty) = true := by
    cases hcl : d.colors with
    | nil =>
      rw [hcl] at hmem
      cases hmem
    | cons a rest => rfl
  rw [if_pos hcond]
  rw [mapMOption_eq_none_of_mem fromStrRadix16 d.colors _ hmem (by decide)]
  rfl

theorem color_hex_encode_decode_witness :
    ResourceData.to_runtime ⟨1, ["ZZZZZZ"], [], [], [], [], [], []⟩
      ⟨[], [], [], [], [], [], []⟩ false false false false true false false = none :=
  color_hex_encode_decode.2.2.2 ⟨1, ["ZZZZZZ"], [], [], [], [], [], []⟩
    ⟨[], [], [], [], [], [], []⟩ false false false false false false (by decide)

/-- C8: `from_runtime` always stamps the engine's current
`RESOURCE_FORMAT_VERSION`, and `to_runtime` is completely independent of the
snapshot's `format_version` field: changing only that field produces the
identical result. -/
theorem version_stamping (p q : Pyxel) (d : ResourceData) (v : Nat)
    (ei et es em ic ich iw : Bool) :
    (ResourceData.from_runtime p).format_version = RESOURCE_FORMAT_VERSION ∧
    ResourceData.to_runtime { d with format_version := v } q ei et es em ic ich iw =
      ResourceData.to_runtime d q ei et es em ic ich iw :=
  ⟨rfl, rfl⟩

/-- C6: the snapshot value `to_toml` serializes keeps the format version
and exactly the selected category lists and empties exactly the unselected
ones (images/tilemaps/sounds/musics cleared when their exclude flag is
true; colors/channels/waveforms cleared when their include flag is false);
being a pure function of the snapshot, it touches no runtime state and
leaves the original snapshot value unmodified. -/
theorem to_toml_filtering (d : ResourceData) (ei et es em ic ich iw : Bool) :
    (d.to_toml_data ei et es em ic ich iw).format_version = d.format_version ∧
    (d.to_toml_data ei et es em ic ich iw).colors = (if ic then d.colors else []) ∧
    (d.to_toml_data ei et es em ic ich iw).images = (if ei then [] else d.images) ∧
    (d.to_toml_data ei et es em ic ich iw).tilemaps = (if et then [] else d.tilemaps) ∧
    (d.to_toml_data ei et es em ic ich iw).channels = (if ich then d.channels else []) ∧
    (d.to_toml_data ei et es em ic ich iw).sounds = (if es then [] else d.sounds) ∧
    (d.to_toml_data ei et es em ic ich iw).musics = (if em then [] else d.musics) ∧
    (d.to_toml_data ei et es em ic ich iw).waveforms = (if iw then d.waveforms else []) := by
  cases ei <;> cases et <;> cases es <;> cases em <;> cases ic <;> cases ich <;> cases iw <;>
    simp [ResourceData.to_toml_data]

end PyxelEngine

